import Mathlib

/-!
# Verification of the `setup-sstart-env` action core (`src/index.js`)

Shallow embedding of the JavaScript source of the repository
`dirathea/setup-sstart-env`.  Strings are modelled as Lean `String`
(lists of characters); JavaScript string methods (`split`, `trim`,
`startsWith`, regular-expression matching) are translated character by
character.  The stateful `run` pipeline is modelled as a pure function
from an environment record to an outcome together with the list of
side effects performed, in order.
-/

namespace SstartEnv

/-- ECMAScript `WhiteSpace ∪ LineTerminator` — the character class removed
by JavaScript `String.prototype.trim`. -/
def jsWhitespace (c : Char) : Bool :=
  let n := c.toNat
  (9 ≤ n && n ≤ 13) || n = 32 || n = 0xA0 || n = 0x1680 ||
  (0x2000 ≤ n && n ≤ 0x200A) || n = 0x2028 || n = 0x2029 ||
  n = 0x202F || n = 0x205F || n = 0x3000 || n = 0xFEFF

/-- ECMAScript `LineTerminator` — the characters NOT matched by `.` in a
JavaScript regular expression without the `s` flag. -/
def isLineTerminator (c : Char) : Bool :=
  let n := c.toNat
  n = 10 || n = 13 || n = 0x2028 || n = 0x2029

/-- JavaScript `line.trim()` on the character list. -/
def jsTrimList (l : List Char) : List Char :=
  ((l.dropWhile jsWhitespace).reverse.dropWhile jsWhitespace).reverse

/-- JavaScript `s.trim()`. -/
def jsTrim (s : String) : String :=
  String.mk (jsTrimList s.data)

/-- JavaScript `s.split(c)` for a single-character separator:
`"".split(c) = [""]`, a trailing separator yields a trailing `""`. -/
def splitOnChar (c : Char) : List Char → List (List Char)
  | [] => [[]]
  | x :: xs =>
    match splitOnChar c xs with
    | [] => [[x]]
    | h :: t => if x = c then [] :: h :: t else (x :: h) :: t

/-- Regex class `[A-Za-z_]` (first character of the key). -/
def isIdentStart (c : Char) : Bool :=
  (('A' ≤ c && c ≤ 'Z') || ('a' ≤ c && c ≤ 'z')) || c = '_'

/-- Regex class `[A-Za-z0-9_]` (subsequent key characters). -/
def isIdentChar (c : Char) : Bool :=
  isIdentStart c || ('0' ≤ c && c ≤ '9')

/-- JavaScript `trimmed.match(/^([A-Za-z_][A-Za-z0-9_]*)=(.*)$/)`:
the key is the maximal run of identifier characters starting the line
(greedy `*` followed by the literal `=`), the value is the rest of the
line, which `(.*)$` accepts exactly when it contains no line
terminator.  Returns the two capture groups. -/
def matchEnvLine (l : List Char) : Option (List Char × List Char) :=
  match l with
  | [] => none
  | c :: rest =>
    if isIdentStart c then
      match rest.dropWhile isIdentChar with
      | '=' :: value =>
        if value.all (fun ch => !(isLineTerminator ch)) then
          some (c :: rest.takeWhile isIdentChar, value)
        else none
      | _ => none
    else none

/-- JavaScript object update `envVars[key] = value`: replace the value in
place if the key is present, otherwise append the new entry. -/
def insertEnv : List (String × String) → String → String → List (String × String)
  | [], k, v => [(k, v)]
  | (k', v') :: rest, k, v =>
    if k' = k then (k', v) :: rest else (k', v') :: insertEnv rest k v

/-- One iteration of the `for (const line of lines)` loop of
`parseEnvOutput` (src/index.js lines 16–29). -/
def processLine (acc : List (String × String)) (line : List Char) :
    List (String × String) :=
  let trimmed := jsTrimList line
  if trimmed = [] then acc
  else if trimmed.head? = some '#' then acc
  else
    match matchEnvLine trimmed with
    | some (k, v) => insertEnv acc (String.mk k) (String.mk v)
    | none => acc

/-- `parseEnvOutput` (src/index.js lines 12–32): split the output on
newlines and fold every line into the accumulated environment map. -/
def parseEnvOutput (output : String) : List (String × String) :=
  (splitOnChar '\n' output.data).foldl processLine []

/-- JavaScript `s.startsWith(pre)`. -/
def strStartsWith (s pre : String) : Bool :=
  pre.data.isPrefixOf s.data

/-- `version.startsWith('v') ? version : 'v' + version`
(src/index.js line 63). -/
def normalizeVersion (version : String) : String :=
  if strStartsWith version "v" then version else "v" ++ version

/-- Architecture normalization (src/index.js lines 51–56): `x64` maps to
`amd64`, `arm64` stays `arm64`, anything else passes through. -/
def normalizeArch (arch : String) : String :=
  if arch = "x64" then "amd64"
  else if arch = "arm64" then "arm64"
  else arch

/-- `platform === 'darwin' ? 'Darwin' : 'Linux'` (src/index.js line 48);
only reached once the platform check has passed. -/
def osName (platform : String) : String :=
  if platform = "darwin" then "Darwin" else "Linux"

/-- `` `${os}_${architecture}` `` (src/index.js line 58). -/
def platformString (platform arch : String) : String :=
  osName platform ++ "_" ++ normalizeArch arch

/-- The download URL template of src/index.js line 64. -/
def downloadUrl (version platform arch : String) : String :=
  "https://github.com/dirathea/sstart/releases/download/" ++
    normalizeVersion version ++ "/sstart_" ++
    platformString platform arch ++ ".tar.gz"

/-! ## The HTTP download (`downloadFile`, src/index.js lines 150–183) -/

/-- The part of an HTTP response observed by `downloadFile`: the status
code, the `Location` header (absent models JavaScript `undefined`), and
the body that `res.pipe(fileStream)` would write. -/
structure HttpResponse where
  statusCode : Nat
  location : Option String
  body : String
deriving DecidableEq, Repr

/-- Result of `downloadFile`: the promise resolves after writing `body`
to the destination, rejects with an error message, or — since the
recursion on redirects has no depth limit — never settles.  The fuel
argument of `downloadFile` makes the recursion structural; exhausting
it models the non-termination of an unbounded redirect chain. -/
inductive DownloadResult where
  | ok (body : String)
  | error (msg : String)
  | diverged
deriving DecidableEq, Repr

/-- `res.statusCode === 301 || 302 || 307 || 308` (src/index.js line 155). -/
def isRedirect (code : Nat) : Bool :=
  code = 301 || code = 302 || code = 307 || code = 308

/-- `downloadFile` (src/index.js lines 150–183) against a pure model
`server` of the network: on a redirect status the GET is re-issued
against the `Location` header value; a missing `Location` makes the
recursive call throw a `TypeError` on `undefined.startsWith`, rejecting
the promise; any other status except 200 rejects with the
status-carrying message; a 200 resolves after piping the body. -/
def downloadFile (server : String → HttpResponse) :
    Nat → String → DownloadResult
  | 0, _ => .diverged
  | fuel + 1, url =>
    let res := server url
    if isRedirect res.statusCode then
      match res.location with
      | some loc => downloadFile server fuel loc
      | none => .error "Cannot read properties of undefined"
    else if res.statusCode ≠ 200 then
      .error ("Download failed with status " ++ toString res.statusCode)
    else
      .ok res.body

/-! ## The `run` pipeline (src/index.js lines 34–148) -/

/-- A side effect performed by `run`, in order of occurrence: the HTTP
download to a file, a subprocess invocation (`tar`, `chmod`, the
`sstart` binary), deleting the archive, adding the working directory to
`PATH`, writing `.sstart.yml`, and exporting one pipeline variable. -/
inductive Effect where
  | download (url dest : String)
  | exec (cmd : String) (args : List String)
  | deleteFile (p : String)
  | addPath (dir : String)
  | writeFile (p content : String)
  | exportVar (key value : String)
deriving DecidableEq, Repr

/-- Final report of a `run`: `core.setFailed` with a message, the
non-fatal `core.warning('sstart env produced no output')` followed by a
successful return, a success reporting the number of exported
variables, or divergence of the unbounded redirect recursion. -/
inductive Outcome where
  | failed (msg : String)
  | warned (msg : String)
  | succeeded (count : Nat)
  | diverged
deriving DecidableEq, Repr

/-- The ambient environment `run` reads: action inputs, `process.platform`
and `process.arch`, `process.cwd()`, the network (as a pure server plus
fuel for the unbounded redirect recursion), and the observable results
of the subprocesses (`tar` success, its error message on failure, the
`sstart env` exit code and captured output streams). -/
structure ActionEnv where
  config : String
  versionInput : String
  platform : String
  arch : String
  cwd : String
  server : String → HttpResponse
  fuel : Nat
  extractOk : Bool
  extractErrMsg : String
  exitCode : Int
  stdout : String
  stderr : String

/-- `core.getInput('version') || '0.0.2'` (src/index.js line 37): the
empty string — an unset input — is falsy and selects the default. -/
def versionOf (env : ActionEnv) : String :=
  if env.versionInput = "" then "0.0.2" else env.versionInput

/-- The archive destination `path.join(process.cwd(), 'sstart_..tar.gz')`
(src/index.js line 68). -/
def archivePath (env : ActionEnv) : String :=
  env.cwd ++ "/sstart_" ++ platformString env.platform env.arch ++ ".tar.gz"

/-- `path.join(process.cwd(), 'sstart')` (src/index.js line 69). -/
def binaryPath (env : ActionEnv) : String :=
  env.cwd ++ "/sstart"

/-- The effects of the pipeline from the download up to and including the
`sstart env` subprocess, in source order (src/index.js lines 74–118). -/
def pipelineEffects (env : ActionEnv) : List Effect :=
  [.download (downloadUrl (versionOf env) env.platform env.arch) (archivePath env),
   .exec "tar" ["-xzf", archivePath env, "-C", env.cwd],
   .deleteFile (archivePath env),
   .exec "chmod" ["+x", binaryPath env],
   .addPath env.cwd,
   .writeFile (env.cwd ++ "/.sstart.yml") env.config,
   .exec (binaryPath env) ["env"]]

/-- `run` (src/index.js lines 34–148) as a pure function from the ambient
environment to the outcome and the ordered list of side effects
performed.  Each `if`/`return` mirrors a guard of the source: the
platform check, the download `try`/`catch`, the extraction
`try`/`catch`, the exit-code check, the empty-output warning, and the
final export loop over `Object.entries(parseEnvOutput(output))`. -/
def run (env : ActionEnv) : Outcome × List Effect :=
  if env.platform ≠ "darwin" ∧ env.platform ≠ "linux" then
    (.failed ("Unsupported platform: " ++ env.platform ++
        ". Only darwin and linux are supported."), [])
  else
    let url := downloadUrl (versionOf env) env.platform env.arch
    let effDownload : List Effect := [.download url (archivePath env)]
    match downloadFile env.server env.fuel url with
    | .diverged => (.diverged, effDownload)
    | .error e => (.failed ("Could not download sstart binary: " ++ e), effDownload)
    | .ok _ =>
      let effTar := effDownload ++ [.exec "tar" ["-xzf", archivePath env, "-C", env.cwd]]
      if env.extractOk = false then
        (.failed ("Could not extract sstart binary: " ++ env.extractErrMsg), effTar)
      else
        let effRun := pipelineEffects env
        if env.exitCode ≠ 0 then
          (.failed ("sstart env exited with code " ++ toString env.exitCode), effRun)
        else if jsTrim env.stdout = "" then
          (.warned "sstart env produced no output", effRun)
        else
          let envVars := parseEnvOutput env.stdout
          (.succeeded envVars.length,
           effRun ++ envVars.map (fun kv => .exportVar kv.1 kv.2))

/-- A concrete healthy environment used by several witnesses below. -/
def happyEnv : ActionEnv where
  config := "providers: []"
  versionInput := ""
  platform := "linux"
  arch := "x64"
  cwd := "/work"
  server := fun _ => ⟨200, none, "binarybytes"⟩
  fuel := 1
  extractOk := true
  extractErrMsg := ""
  exitCode := 0
  stdout := "KEY1=value1\nKEY2=value2"
  stderr := ""

/-- A redirect chain in the pure server model: starting at `u`, each of
the urls in `hops` is reached through a redirect status whose
`Location` header names the next hop, and the final url answers with
status 200. -/
def redirectChain (srv : String → HttpResponse) :
    String → List String → String → Bool
  | u, [], ufinal =>
    u = ufinal && (srv ufinal).statusCode = 200
  | u, next :: rest, ufinal =>
    isRedirect (srv u).statusCode &&
      (srv u).location = some next &&
      redirectChain srv next rest ufinal

/-- The contribution of one raw line to the map: the two capture groups
of the pattern applied to the trimmed line, as strings. -/
def lineEntry (line : List Char) : Option (String × String) :=
  match matchEnvLine (jsTrimList line) with
  | some kv => some (String.mk kv.1, String.mk kv.2)
  | none => none

/-- The values carried by the matching lines whose key is `key`, in line
order. -/
def valuesFor (key : String) : List (List Char) → List String
  | [] => []
  | line :: rest =>
    match lineEntry line with
    | some kv =>
      if kv.1 = key then kv.2 :: valuesFor key rest else valuesFor key rest
    | none => valuesFor key rest

/-- Map access `envVars[key]`: the value of the first (and, by the
no-duplicate invariant, only) entry with the given key. -/
def lookupEnv (k : String) : List (String × String) → Option String
  | [] => none
  | kv :: rest => if kv.1 = k then some kv.2 else lookupEnv k rest

/-- The last element of a list, if any. -/
def lastOpt : List String → Option String
  | [] => none
  | [v] => some v
  | _ :: v :: vs => lastOpt (v :: vs)

/-- The first of two options that is `some`, if any. -/
def firstSome : Option String → Option String → Option String
  | some v, _ => some v
  | none, b => b

/-! ## Helper lemmas -/

lemma strStartsWith_v_append (s : String) :
    strStartsWith ("v" ++ s) "v" = true := by
  cases s with
  | mk l =>
    show List.isPrefixOf "v".data (("v" ++ String.mk l).data) = true
    have hv : "v".data = ['v'] := rfl
    rw [String.data_append, hv]
    simp [List.isPrefixOf]

lemma dropWhile_append_all {p : Char → Bool} (l r : List Char)
    (h : l.all p = true) : (l ++ r).dropWhile p = r.dropWhile p := by
  induction l with
  | nil => rfl
  | cons x xs ih =>
    simp only [List.all_cons, Bool.and_eq_true] at h
    simp [List.dropWhile_cons, h.1, ih h.2]

lemma takeWhile_append_all {p : Char → Bool} (l r : List Char)
    (h : l.all p = true) : (l ++ r).takeWhile p = l ++ r.takeWhile p := by
  induction l with
  | nil => rfl
  | cons x xs ih =>
    simp only [List.all_cons, Bool.and_eq_true] at h
    simp [List.takeWhile_cons, h.1, ih h.2]

lemma dropWhile_all_nil {p : Char → Bool} (l : List Char)
    (h : l.all p = true) : l.dropWhile p = [] := by
  induction l with
  | nil => rfl
  | cons x xs ih =>
    simp only [List.all_cons, Bool.and_eq_true] at h
    simp [List.dropWhile_cons, h.1, ih h.2]

lemma jsTrimList_all_ws (l : List Char) (h : l.all jsWhitespace = true) :
    jsTrimList l = [] := by
  unfold jsTrimList
  rw [dropWhile_all_nil l h]
  rfl

/-- `processLine` in terms of the line's contribution: faithful guards
for blank and `#`-prefixed lines are subsumed by the pattern match
(those lines never match the key pattern). -/
lemma processLine_eq_lineEntry (acc : List (String × String))
    (line : List Char) :
    processLine acc line =
      match lineEntry line with
      | some kv => insertEnv acc kv.1 kv.2
      | none => acc := by
  unfold processLine lineEntry
  by_cases he : jsTrimList line = []
  · simp [he, matchEnvLine]
  · by_cases hh : (jsTrimList line).head? = some '#'
    · obtain ⟨t, ht⟩ : ∃ t, jsTrimList line = '#' :: t := by
        cases hl : jsTrimList line with
        | nil => exact absurd hl he
        | cons a t =>
          rw [hl] at hh
          simp only [List.head?_cons, Option.some.injEq] at hh
          exact ⟨t, by rw [hh]⟩
      have hns : isIdentStart '#' = false := by decide
      simp [he, hh, ht, matchEnvLine, hns]
    · simp only [he, hh, if_false, if_neg he, if_neg hh]
      cases hm : matchEnvLine (jsTrimList line) with
      | none => simp
      | some kv => cases kv with | mk k v => simp

lemma lookupEnv_insertEnv_self (m : List (String × String)) (k v : String) :
    lookupEnv k (insertEnv m k v) = some v := by
  induction m with
  | nil => simp [insertEnv, lookupEnv]
  | cons kv rest ih =>
    obtain ⟨k', v'⟩ := kv
    by_cases h : k' = k
    · simp [insertEnv, h, lookupEnv]
    · simp [insertEnv, h, lookupEnv, ih]

lemma lookupEnv_insertEnv_ne (m : List (String × String)) (k k' v : String)
    (h : k ≠ k') :
    lookupEnv k' (insertEnv m k v) = lookupEnv k' m := by
  induction m with
  | nil => simp [insertEnv, lookupEnv, h]
  | cons kv rest ih =>
    obtain ⟨k0, v0⟩ := kv
    by_cases h0 : k0 = k
    · subst h0
      simp [insertEnv, lookupEnv, h]
    · simp [insertEnv, h0, lookupEnv, ih]

lemma mem_keys_insertEnv (m : List (String × String)) (k v x : String) :
    x ∈ (insertEnv m k v).map Prod.fst ↔ x ∈ m.map Prod.fst ∨ x = k := by
  induction m with
  | nil => simp [insertEnv]
  | cons kv rest ih =>
    obtain ⟨k0, v0⟩ := kv
    by_cases h0 : k0 = k
    · subst h0
      simp [insertEnv]
      tauto
    · simp [insertEnv, h0, ih]
      tauto

lemma nodup_keys_insertEnv (m : List (String × String)) (k v : String)
    (h : (m.map Prod.fst).Nodup) :
    ((insertEnv m k v).map Prod.fst).Nodup := by
  induction m with
  | nil => simp [insertEnv]
  | cons kv rest ih =>
    obtain ⟨k0, v0⟩ := kv
    simp only [List.map_cons, List.nodup_cons] at h
    by_cases h0 : k0 = k
    · subst h0
      simpa [insertEnv] using h
    · have hstep : insertEnv ((k0, v0) :: rest) k v =
          (k0, v0) :: insertEnv rest k v := by
        simp [insertEnv, h0]
      rw [hstep, List.map_cons, List.nodup_cons]
      refine ⟨?_, ih h.2⟩
      intro hmem
      rw [mem_keys_insertEnv] at hmem
      rcases hmem with hin | hk
      · exact h.1 hin
      · exact h0 hk

lemma nodup_keys_foldl (lines : List (List Char))
    (acc : List (String × String)) (h : (acc.map Prod.fst).Nodup) :
    (((lines.foldl processLine acc)).map Prod.fst).Nodup := by
  induction lines generalizing acc with
  | nil => simpa using h
  | cons line rest ih =>
    rw [List.foldl_cons]
    apply ih
    rw [processLine_eq_lineEntry]
    cases hm : lineEntry line with
    | none => simpa using h
    | some kv => exact nodup_keys_insertEnv acc kv.1 kv.2 h

lemma lastOpt_cons_isSome (v : String) (vs : List String) :
    ∃ w, lastOpt (v :: vs) = some w := by
  induction vs generalizing v with
  | nil => exact ⟨v, rfl⟩
  | cons x xs ih => simpa [lastOpt] using ih x

lemma firstSome_lastOpt_cons (v : String) (vs : List String)
    (w : Option String) :
    firstSome (lastOpt (v :: vs)) w = firstSome (lastOpt vs) (some v) := by
  cases vs with
  | nil => rfl
  | cons x xs =>
    obtain ⟨z, hz⟩ := lastOpt_cons_isSome x xs
    simp [lastOpt, hz, firstSome]

lemma lookupEnv_foldl (lines : List (List Char))
    (acc : List (String × String)) (key : String) :
    lookupEnv key (lines.foldl processLine acc) =
      firstSome (lastOpt (valuesFor key lines)) (lookupEnv key acc) := by
  induction lines generalizing acc with
  | nil => simp [valuesFor, lastOpt, firstSome]
  | cons line rest ih =>
    rw [List.foldl_cons, ih, processLine_eq_lineEntry]
    cases hm : lineEntry line with
    | none => simp [valuesFor, hm]
    | some kv =>
      by_cases hk : kv.1 = key
      · subst hk
        rw [lookupEnv_insertEnv_self]
        simp only [valuesFor, hm, if_pos rfl]
        exact (firstSome_lastOpt_cons kv.2 (valuesFor kv.1 rest)
          (lookupEnv kv.1 acc)).symm
      · rw [lookupEnv_insertEnv_ne acc kv.1 key kv.2 hk]
        simp [valuesFor, hm, hk]

/-! ## Claim theorems -/

/-- C2: version normalization is idempotent — a string already starting
with `v` is returned unchanged, a string not starting with `v` gets
exactly one `v` prepended, and hence normalizing twice equals
normalizing once. -/
theorem c2_normalizeVersion_idempotent (s : String) :
    (strStartsWith s "v" = true → normalizeVersion s = s)
    ∧ (strStartsWith s "v" = false → normalizeVersion s = "v" ++ s)
    ∧ normalizeVersion (normalizeVersion s) = normalizeVersion s := by
  refine ⟨fun h => by simp [normalizeVersion, h],
          fun h => by simp [normalizeVersion, h], ?_⟩
  by_cases h : strStartsWith s "v" = true
  · simp [normalizeVersion, h]
  · have h' : strStartsWith s "v" = false := by
      cases hb : strStartsWith s "v" with
      | false => rfl
      | true => exact absurd hb h
    simp [normalizeVersion, h', strStartsWith_v_append]

/-- Witness for C2 at the concrete versions `0.0.2` and `v0.0.2`. -/
theorem c2_normalizeVersion_idempotent_witness :
    normalizeVersion "0.0.2" = "v" ++ "0.0.2"
    ∧ normalizeVersion "v0.0.2" = "v0.0.2" :=
  ⟨(c2_normalizeVersion_idempotent "0.0.2").2.1 (by decide),
   (c2_normalizeVersion_idempotent "v0.0.2").1 (by decide)⟩

/-- C3: for version `0.0.2` on `darwin`/`x64` the constructed download
URL is exactly the hyphenless `sstart_Darwin_amd64.tar.gz` release URL:
the `v` prefix is added to the version and `x64` maps to `amd64`. -/
theorem c3_downloadUrl_darwin_x64 :
    downloadUrl "0.0.2" "darwin" "x64" =
      "https://github.com/dirathea/sstart/releases/download/v0.0.2/sstart_Darwin_amd64.tar.gz" := by
  decide

/-- C1: on any operating system other than `darwin` and `linux` the run
fails with the unsupported-platform message and performs no side effect
(the effect list is empty); on `darwin` or `linux` the platform check
passes and the pipeline proceeds — the download is the first effect
attempted. -/
theorem c1_platform_gate (env : ActionEnv) :
    (env.platform ≠ "darwin" → env.platform ≠ "linux" →
      run env = (.failed ("Unsupported platform: " ++ env.platform ++
          ". Only darwin and linux are supported."), []))
    ∧ ((env.platform = "darwin" ∨ env.platform = "linux") →
      ((run env).2).head? =
        some (.download (downloadUrl (versionOf env) env.platform env.arch)
          (archivePath env))) := by
  constructor
  · intro h1 h2
    simp [run, h1, h2]
  · intro hp
    have hcond : ¬(env.platform ≠ "darwin" ∧ env.platform ≠ "linux") := by
      rintro ⟨h1, h2⟩
      exact hp.elim h1 h2
    rw [run, if_neg hcond]
    cases hdl : downloadFile env.server env.fuel
        (downloadUrl (versionOf env) env.platform env.arch) with
    | ok body =>
      by_cases he : env.extractOk = false
      · simp [hdl, he]
      · have he' : env.extractOk = true := by
          cases hb : env.extractOk with
          | false => exact absurd hb he
          | true => rfl
        by_cases hx : env.exitCode ≠ 0
        · simp [hdl, he', hx, pipelineEffects]
        · by_cases hw : jsTrim env.stdout = ""
          · simp [hdl, he', hx, hw, pipelineEffects]
          · simp [hdl, he', hx, hw, pipelineEffects]
    | error e => simp [hdl]
    | diverged => simp [hdl]

/-- Witness for C1: the platform check fails with no effects on `win32`,
and on the healthy `linux` environment the first effect is the download. -/
theorem c1_platform_gate_witness :
    run { happyEnv with platform := "win32" } =
      (.failed "Unsupported platform: win32. Only darwin and linux are supported.", [])
    ∧ ((run happyEnv).2).head? =
        some (.download (downloadUrl (versionOf happyEnv) happyEnv.platform happyEnv.arch)
          (archivePath happyEnv)) := by
  constructor
  · have h := (c1_platform_gate { happyEnv with platform := "win32" }).1
      (by decide) (by decide)
    simpa using h
  · exact (c1_platform_gate happyEnv).2 (Or.inr rfl)

/-- Counterexample to C4 as stated: status 201 is a 2xx success status,
yet the download fails with a download error — `downloadFile` only
accepts status 200, not every 2xx status. -/
theorem c4_counterexample :
    downloadFile (fun _ => ⟨201, none, "created"⟩) 1 "https://example" =
      .error "Download failed with status 201"
    ∧ 200 ≤ 201 ∧ 201 < 300 := by
  exact ⟨by decide, by decide, by decide⟩

/-- C4 amended: whenever the response status is not a redirect
(301/302/307/308), the download succeeds exactly on status 200 — any
other status, including 2xx statuses other than 200, fails with a
download error whose message carries that HTTP status code. -/
theorem c4_status_handling (srv : String → HttpResponse) (fuel : Nat)
    (url : String) (hnr : isRedirect (srv url).statusCode = false) :
    ((srv url).statusCode = 200 →
      downloadFile srv (fuel + 1) url = .ok (srv url).body)
    ∧ ((srv url).statusCode ≠ 200 →
      downloadFile srv (fuel + 1) url =
        .error ("Download failed with status " ++ toString (srv url).statusCode)) := by
  constructor
  · intro h200
    simp [downloadFile, isRedirect, hnr, h200]
  · intro hne
    simp [downloadFile, hnr, hne]

/-- Witness for C4 amended at a concrete 404 server and a concrete 200
server. -/
theorem c4_status_handling_witness :
    downloadFile (fun _ => ⟨404, none, ""⟩) 1 "https://x" =
      .error "Download failed with status 404"
    ∧ downloadFile (fun _ => ⟨200, none, "payload"⟩) 1 "https://x" =
      .ok "payload" :=
  ⟨(c4_status_handling (fun _ => ⟨404, none, ""⟩) 0 "https://x" (by decide)).2
      (by decide),
   (c4_status_handling (fun _ => ⟨200, none, "payload"⟩) 0 "https://x" (by decide)).1
      (by decide)⟩

/-- C5: a redirect response is followed against its `Location` header
value, recursively, for a chain of any length (no depth limit), and the
body finally written is that of the final successful non-redirect
response — provided the fuel of the model exceeds the chain length. -/
theorem c5_redirects_followed (hops : List String)
    (srv : String → HttpResponse) (u ufinal : String) (fuel : Nat)
    (hchain : redirectChain srv u hops ufinal = true)
    (hfuel : hops.length < fuel) :
    downloadFile srv fuel u = .ok (srv ufinal).body := by
  induction hops generalizing u fuel with
  | nil =>
    obtain ⟨f, rfl⟩ : ∃ f, fuel = f + 1 :=
      ⟨fuel - 1, by omega⟩
    simp only [redirectChain, Bool.and_eq_true, decide_eq_true_eq] at hchain
    obtain ⟨heq, h200⟩ := hchain
    subst heq
    have hnr : isRedirect (srv u).statusCode = false := by
      simp [isRedirect, h200]
    simp [downloadFile, isRedirect, hnr, h200]
  | cons next rest ih =>
    obtain ⟨f, rfl⟩ : ∃ f, fuel = f + 1 :=
      ⟨fuel - 1, by omega⟩
    simp only [redirectChain, Bool.and_eq_true, decide_eq_true_eq] at hchain
    obtain ⟨⟨hred, hloc⟩, hrest⟩ := hchain
    have hlen : rest.length < f := by
      simpa using Nat.lt_of_succ_lt_succ hfuel
    rw [downloadFile]
    simp only [hred, if_true, hloc]
    exact ih next f hrest hlen

/-- Witness for C5: a concrete 302 → 200 chain delivers the final
response's body, not the redirect response's body. -/
theorem c5_redirects_followed_witness :
    downloadFile
      (fun u => if u = "https://start"
        then ⟨302, some "https://final", "redirect page"⟩
        else ⟨200, none, "final body"⟩)
      2 "https://start" = .ok "final body" := by
  have h := c5_redirects_followed ["https://final"]
    (fun u => if u = "https://start"
      then ⟨302, some "https://final", "redirect page"⟩
      else ⟨200, none, "final body"⟩)
    "https://start" "https://final" 2 (by decide) (by decide)
  simpa using h

/-- C6: the two-line input yields the expected two-entry map, and any
line that is blank after trimming, starts with `#`, or does not match
the key pattern (e.g. contains no `=` after a valid identifier) leaves
the map unchanged — skipped silently, never an error. -/
theorem c6_line_oriented_parsing :
    parseEnvOutput "KEY1=value1\nKEY2=value2" =
      [("KEY1", "value1"), ("KEY2", "value2")]
    ∧ ∀ (acc : List (String × String)) (line : List Char),
        (jsTrimList line = [] ∨ (jsTrimList line).head? = some '#'
          ∨ matchEnvLine (jsTrimList line) = none) →
        processLine acc line = acc := by
  refine ⟨by decide, fun acc line h => ?_⟩
  rw [processLine_eq_lineEntry]
  rcases h with he | hh | hm
  · simp [lineEntry, he, matchEnvLine]
  · obtain ⟨t, ht⟩ : ∃ t, jsTrimList line = '#' :: t := by
      cases hl : jsTrimList line with
      | nil => rw [hl] at hh; exact absurd hh (by simp)
      | cons a t =>
        rw [hl] at hh
        simp only [List.head?_cons, Option.some.injEq] at hh
        exact ⟨t, by rw [hh]⟩
    have hns : isIdentStart '#' = false := by decide
    simp [lineEntry, ht, matchEnvLine, hns]
  · simp [lineEntry, hm]

/-- Witness for C6 at the skipped lines `"not-a-valid-key"`,
`"# comment"` and `"   "`, against a non-empty accumulated map. -/
theorem c6_line_oriented_parsing_witness :
    processLine [("A", "b")] "not-a-valid-key".data = [("A", "b")]
    ∧ processLine [("A", "b")] "# comment".data = [("A", "b")]
    ∧ processLine [("A", "b")] "   ".data = [("A", "b")] :=
  ⟨c6_line_oriented_parsing.2 [("A", "b")] "not-a-valid-key".data
    (Or.inr (Or.inr (by decide))),
   c6_line_oriented_parsing.2 [("A", "b")] "# comment".data
    (Or.inr (Or.inl (by decide))),
   c6_line_oriented_parsing.2 [("A", "b")] "   ".data
    (Or.inl (by decide))⟩

/-- Counterexample to C7 as stated: in the line `KEY=a\rb` the substring
after the first `=` is `a\rb`, but no entry at all is stored — the
regex `(.*)$` refuses values containing a carriage return, so the value
is not taken fully unvalidated. -/
theorem c7_counterexample :
    parseEnvOutput "KEY=a\rb" = []
    ∧ ("KEY", "a\rb") ∉ parseEnvOutput "KEY=a\rb" :=
  ⟨by decide, by decide⟩

/-- C7 amended: for every trimmed line `IDENTIFIER=REST` in which `REST`
contains no line-terminator character, the stored value is exactly
`REST`, verbatim — it may be empty and may contain further `=`
characters (`REST` below is an arbitrary terminator-free character
list); a line whose `REST` contains a line terminator is skipped
entirely. -/
theorem c7_value_verbatim (acc : List (String × String)) (k0 : Char)
    (ktail rest : List Char)
    (hstart : isIdentStart k0 = true)
    (htail : ktail.all isIdentChar = true)
    (hval : rest.all (fun c => !(isLineTerminator c)) = true)
    (htrim : jsTrimList ((k0 :: ktail) ++ '=' :: rest) =
      (k0 :: ktail) ++ '=' :: rest) :
    processLine acc ((k0 :: ktail) ++ '=' :: rest) =
      insertEnv acc (String.mk (k0 :: ktail)) (String.mk rest) := by
  have hne : isIdentChar '=' = false := by decide
  have hdrop : (ktail ++ '=' :: rest).dropWhile isIdentChar = '=' :: rest := by
    rw [dropWhile_append_all ktail _ htail]
    simp [List.dropWhile_cons, hne]
  have htake : (ktail ++ '=' :: rest).takeWhile isIdentChar = ktail := by
    rw [takeWhile_append_all ktail _ htail]
    simp [List.takeWhile_cons, hne]
  have hmatch : matchEnvLine ((k0 :: ktail) ++ '=' :: rest) =
      some (k0 :: ktail, rest) := by
    show matchEnvLine (k0 :: (ktail ++ '=' :: rest)) = some (k0 :: ktail, rest)
    unfold matchEnvLine
    simp [hstart, hdrop, htake, hval]
  have hnz : k0 ≠ '#' := by
    intro h
    rw [h] at hstart
    exact absurd hstart (by decide)
  unfold processLine
  rw [htrim]
  have hcons : (k0 :: ktail) ++ '=' :: rest = k0 :: (ktail ++ '=' :: rest) := by
    simp
  rw [if_neg (by simp), if_neg (by simpa [hcons] using hnz), hmatch]

/-- Witness for C7 amended: the trimmed line `KEY=a=b` stores the value
`a=b` (containing a further `=`), and the trimmed line `KEY2=` stores
the empty value. -/
theorem c7_value_verbatim_witness :
    processLine [] ("KEY=a=b".data) = [("KEY", "a=b")]
    ∧ processLine [] ("KEY2=".data) = [("KEY2", "")] := by
  constructor
  · have e : "KEY=a=b".data = ('K' :: ['E', 'Y']) ++ '=' :: ['a', '=', 'b'] := by
      decide
    rw [e, c7_value_verbatim [] 'K' ['E', 'Y'] ['a', '=', 'b']
      (by decide) (by decide) (by decide) (by decide)]
    decide
  · have e : "KEY2=".data = ('K' :: ['E', 'Y', '2']) ++ '=' :: [] := by
      decide
    rw [e, c7_value_verbatim [] 'K' ['E', 'Y', '2'] []
      (by decide) (by decide) (by decide) (by decide)]
    decide

/-- C8: for every input the parsed map has pairwise distinct keys — at
most one entry per key — and the value found for a key is the value of
the last matching line carrying that key (so on duplicate keys the last
occurrence in line order wins). -/
theorem c8_last_occurrence_wins (output : String) (key : String) :
    ((parseEnvOutput output).map Prod.fst).Nodup
    ∧ lookupEnv key (parseEnvOutput output) =
        lastOpt (valuesFor key (splitOnChar '\n' output.data)) := by
  constructor
  · exact nodup_keys_foldl _ [] (by simp)
  · have h := lookupEnv_foldl (splitOnChar '\n' output.data) [] key
    rw [parseEnvOutput, h]
    cases lastOpt (valuesFor key (splitOnChar '\n' output.data)) with
    | none => rfl
    | some v => rfl

/-- When the platform check, the download, the extraction and the
subprocess all succeed, `run` reaches the export phase: it warns and
exports nothing on whitespace-only output, otherwise it exports every
parsed entry and succeeds with the entry count. -/
lemma run_export_phase (env : ActionEnv) (b : String)
    (hp : env.platform = "darwin" ∨ env.platform = "linux")
    (hd : downloadFile env.server env.fuel
      (downloadUrl (versionOf env) env.platform env.arch) = .ok b)
    (he : env.extractOk = true)
    (hx : env.exitCode = 0) :
    run env =
      if jsTrim env.stdout = "" then
        (.warned "sstart env produced no output", pipelineEffects env)
      else
        (.succeeded (parseEnvOutput env.stdout).length,
         pipelineEffects env ++
           (parseEnvOutput env.stdout).map (fun kv => .exportVar kv.1 kv.2)) := by
  have hcond : ¬(env.platform ≠ "darwin" ∧ env.platform ≠ "linux") := by
    rintro ⟨h1, h2⟩
    exact hp.elim h1 h2
  rw [run, if_neg hcond]
  simp only [hd, he, hx]
  by_cases hw : jsTrim env.stdout = ""
  · simp [hw]
  · simp [hw]

/-- C9: whenever the captured standard output is empty or
whitespace-only, the run emits the non-fatal warning
`sstart env produced no output`, exports no environment variable, and
does not fail — the empty-output condition is not a failure. -/
theorem c9_empty_output_warning (env : ActionEnv) (b : String)
    (hp : env.platform = "darwin" ∨ env.platform = "linux")
    (hd : downloadFile env.server env.fuel
      (downloadUrl (versionOf env) env.platform env.arch) = .ok b)
    (he : env.extractOk = true)
    (hx : env.exitCode = 0)
    (hws : env.stdout.data.all jsWhitespace = true) :
    (run env).1 = .warned "sstart env produced no output"
    ∧ (∀ k v, Effect.exportVar k v ∉ (run env).2)
    ∧ ∀ msg, (run env).1 ≠ .failed msg := by
  have htrim : jsTrim env.stdout = "" := by
    show String.mk (jsTrimList env.stdout.data) = ""
    rw [jsTrimList_all_ws env.stdout.data hws]
  rw [run_export_phase env b hp hd he hx, if_pos htrim]
  refine ⟨rfl, fun k v => ?_, fun msg => by simp⟩
  simp [pipelineEffects]

/-- Witness for C9 on the healthy environment with whitespace-only
output `"  \n "`. -/
theorem c9_empty_output_warning_witness :
    (run { happyEnv with stdout := "  \n " }).1 =
      .warned "sstart env produced no output"
    ∧ Effect.exportVar "KEY1" "value1" ∉
        (run { happyEnv with stdout := "  \n " }).2 := by
  have h := c9_empty_output_warning { happyEnv with stdout := "  \n " }
    "binarybytes" (Or.inr rfl) (by decide) rfl rfl (by decide)
  exact ⟨h.1, h.2.1 "KEY1" "value1"⟩

/-- C10: the line-oriented parser is total — once the subprocess has
succeeded, no standard-output text whatsoever can make the run fail:
the outcome is the non-fatal warning on whitespace-only output and
otherwise success with the parsed entry count, so the
`output parse error` branch of the error taxonomy is unreachable. -/
theorem c10_parse_never_fails (env : ActionEnv) (b : String)
    (hp : env.platform = "darwin" ∨ env.platform = "linux")
    (hd : downloadFile env.server env.fuel
      (downloadUrl (versionOf env) env.platform env.arch) = .ok b)
    (he : env.extractOk = true)
    (hx : env.exitCode = 0) :
    (run env).1 =
      (if jsTrim env.stdout = "" then .warned "sstart env produced no output"
       else .succeeded (parseEnvOutput env.stdout).length)
    ∧ ∀ msg, (run env).1 ≠ .failed msg := by
  rw [run_export_phase env b hp hd he hx]
  by_cases hw : jsTrim env.stdout = ""
  · simp [hw]
  · simp [hw]

/-- Witness for C10 on arbitrarily malformed subprocess output: the run
still succeeds, exporting zero variables. -/
theorem c10_parse_never_fails_witness :
    (run { happyEnv with stdout := "not-a-valid-key\n### garbage" }).1 =
      .succeeded 0
    ∧ (run { happyEnv with stdout := "not-a-valid-key\n### garbage" }).1 ≠
        .failed "Failed to parse output" := by
  have h := c10_parse_never_fails
    { happyEnv with stdout := "not-a-valid-key\n### garbage" }
    "binarybytes" (Or.inr rfl) (by decide) rfl rfl
  refine ⟨?_, h.2 "Failed to parse output"⟩
  rw [h.1]
  decide

end SstartEnv
